import Mathlib

/-!
# Verification of the grafx equalizer and nonlinearity processors

A shallow embedding of `src/grafx/processors/eq.py` and
`src/grafx/processors/nonlinear.py`.  Signals are modelled as lists of
samples (one list per channel, a 2-channel signal being a 2-element list of
channels), tensors of parameters as lists, and Python exceptions as an
explicit error type returned through `Except`.  The sample type is kept
polymorphic over a `Field` so that every definition is executable; claims
are instantiated at `ℚ` when a witness must evaluate them and at `ℝ` when
the transcendental filter-design formulas are involved.

The repository's core helpers (`grafx.processors.core.convolution`,
`core.fir`, `core.midside`, `core.geq`, `core.iir`) are imported by
`eq.py` but their sources are not part of this snapshot; those definitions
are modelled from the specification and are marked `Modelled from the spec:`
in their doc comments.  Everything else is translated directly from the
Python source.
-/

/-- Python exception kinds that the modelled code can raise. -/
inductive PyErr where
  | typeError
  | attributeError
  | shapeError
  | configurationError
  | nameError
  deriving DecidableEq, Repr

section Core

variable {α : Type} [Field α]

/-! ## Convolution core

Modelled from the spec (§4.5): `convolve(signal, kernel, mode=zerophase)` is
a linear convolution with the kernel applied center-aligned, output length
equal to the input length, signal zero-padded at the edges. -/

/-- Sample of a zero-padded channel at an integer index: `x[i]` when
`0 ≤ i < x.length`, and `0` outside. -/
def zAt (x : List α) (i : ℤ) : α :=
  if 0 ≤ i ∧ i < x.length then x.getD i.toNat 0 else 0

/-- Modelled from the spec: the zero-phase convolution output sample at
index `n`: the kernel is applied with its center tap `(N - 1) / 2` aligned
to the current input sample, so the output is time-aligned with the input. -/
def zconvAt (x h : List α) (n : ℤ) : α :=
  ∑ k ∈ Finset.range h.length,
    h.getD k 0 * zAt x (n + ((h.length : ℤ) - 1) / 2 - k)

/-- Modelled from the spec: zero-phase convolution of one channel with one
kernel; the output has exactly the input's length. -/
def zconv (x h : List α) : List α :=
  (List.range x.length).map fun n : ℕ => zconvAt x h (n : ℤ)

/-! ## Mid/side channel transforms

Modelled from the spec (§4.5): a linear, memoryless per-sample channel mix,
`mid`/`side` built from sum and difference of left and right.  Of the two
self-consistent placements of the `1/2` scaling allowed by the spec's
"(L+R)/2-style" wording we put the halving in `ms_to_lr`, so that
`ms_to_lr (lr_to_ms x) = x` and `lr_to_ms (ms_to_lr y) = y` hold exactly. -/

/-- Elementwise sum of two channels. -/
def addL (a b : List α) : List α := List.zipWith (· + ·) a b

/-- Elementwise difference of two channels. -/
def subL (a b : List α) : List α := List.zipWith (· - ·) a b

/-- Elementwise halving of a channel. -/
def halfL (a : List α) : List α := a.map (· / 2)

/-- First channel of a multichannel buffer. -/
def ch0 (x : List (List α)) : List α := x.getD 0 []

/-- Second channel of a multichannel buffer. -/
def ch1 (x : List (List α)) : List α := x.getD 1 []

/-- Modelled from the spec: left/right to mid/side,
`mid = L + R`, `side = L - R`. -/
def lr_to_ms (x : List (List α)) : List (List α) :=
  [addL (ch0 x) (ch1 x), subL (ch0 x) (ch1 x)]

/-- Modelled from the spec: mid/side back to left/right,
`L = (mid + side) / 2`, `R = (mid - side) / 2`. -/
def ms_to_lr (x : List (List α)) : List (List α) :=
  [halfL (addL (ch0 x) (ch1 x)), halfL (subL (ch0 x) (ch1 x))]

end Core

/-- The channel-mode strategy selected once at construction by the `match`
on `eq_channel` in `NewZeroPhaseFIREqualizer.__init__` (src eq.py lines
161-167). -/
inductive ChanMode where
  | monoStereo
  | midside
  | pseudoMidside
  deriving DecidableEq, Repr

section Core2

variable {α : Type} [Field α]

/-- The per-call channel-mode strategies of `NewZeroPhaseFIREqualizer`
(src eq.py lines 199-209): `_process_mono_stereo`, `_process_midside` and
`_process_pseudo_midside`.  The mono/stereo strategy follows the spec's
convolution contract (one kernel shared across all channels, or one kernel
per channel paired elementwise); the midside strategy transforms the signal
to mid/side, convolves, and transforms back; the pseudo-midside strategy
transforms the kernel with `ms_to_lr` and convolves directly in L/R. -/
def processApply (m : ChanMode) (x fir : List (List α)) : List (List α) :=
  match m with
  | .monoStereo =>
      if fir.length = 1 then x.map fun c => zconv c (fir.getD 0 [])
      else List.zipWith zconv x fir
  | .midside => ms_to_lr (List.zipWith zconv (lr_to_ms x) fir)
  | .pseudoMidside => List.zipWith zconv x (ms_to_lr fir)

end Core2

/-! ## Zero-phase FIR synthesizer -/

/-- Modelled from the spec (§4.2) and the formula in the
`ZeroPhaseFIREqualizer` docstring (src eq.py lines 14-22): the tap of the
synthesized kernel at centered index `n` is the window sample times the
real part of the inverse DFT of the exponentiated log-magnitude,
`h[n] = w[n] * (1/K) * sum_k exp(H_log[k]) * cos(2 pi k n / K)`. -/
noncomputable def zeroPhaseFIRTap (K : ℕ) (w : ℤ → ℝ) (lm : ℕ → ℝ) (n : ℤ) : ℝ :=
  w n * ((1 : ℝ) / K) *
    ∑ k ∈ Finset.range K, Real.exp (lm k) * Real.cos (2 * Real.pi * k * n / K)

/-- Modelled from the spec: the synthesized kernel as a list of
`2 * K - 1` taps, the center tap sitting at list index `K - 1`. -/
noncomputable def zeroPhaseFIRKernel (K : ℕ) (w : ℤ → ℝ) (lm : List ℝ) : List ℝ :=
  (List.range (2 * K - 1)).map fun t : ℕ =>
    zeroPhaseFIRTap K w (fun k => lm.getD k 0) ((t : ℤ) - ((K : ℤ) - 1))

/-! ## Window and scale options -/

/-- The valid window names (src eq.py docstring lines 119-123, spec §4.2). -/
def validWindows : List String :=
  ["hann", "hamming", "blackman", "bartlett", "kaiser"]

/-- The valid frequency-scale names of the filterbank
(src eq.py docstring lines 103-107, spec §3). -/
def validScales : List String :=
  ["bark_traunmuller", "bark_schroeder", "bark_wang", "mel_htk", "mel_slaney",
   "linear", "log"]

/-- The `window` argument: a named window or an explicit coefficient
sequence (src eq.py docstring lines 119-123, spec §3 Window). -/
inductive WindowArg where
  | named (name : String)
  | custom (w : ℤ → ℝ)

/-- Modelled from the spec: every named window is a zero-centered symmetric
taper; the spec fixes the valid-name set but gives no closed formulas, and
no claim depends on a named window's sample values (kernel symmetry is
always taken from an explicit window-symmetry hypothesis), so every valid
name resolves to the constant taper. -/
def namedWindow (_name : String) : ℤ → ℝ := fun _ => 1

/-- Resolve the window argument to a zero-centered tap function. -/
def resolveWindow : WindowArg → ℤ → ℝ
  | .named n => namedWindow n
  | .custom w => w

/-- Whether the window argument names a known window (custom coefficient
sequences are always accepted). -/
def windowNameOk : WindowArg → Bool
  | .named n => validWindows.contains n
  | .custom _ => true


/-! ## The equalizer modules -/

/-- Configuration of the filterbank FIR submodule
(`ZeroPhaseFilterBankFIR`).  Modelled from the spec (§4.1): scale and
window validated at construction, `f_max` resolved.  The triangular
filterbank matrix for the chosen scale is carried as a function
(`fbMatrix`): its per-scale frequency formulas are neither in this source
snapshot nor numerically fixed by the spec, and no claim inspects its
entries. -/
structure FBConfig where
  scale : String
  n_filters : ℕ
  f_min : ℝ
  f_max : ℝ
  window : ℤ → ℝ
  fbMatrix : ℕ → ℕ → ℝ
  K : ℕ

/-- The `self.fir` submodule of the FIR equalizers: a plain `ZeroPhaseFIR`
or the filterbank variant. -/
inductive FirModule where
  | plain (K : ℕ) (w : ℤ → ℝ)
  | filterbank (cfg : FBConfig)

/-- Modelled from the spec (§4.2, §7): `ZeroPhaseFIR` construction
validates a named window at construction time. -/
def zeroPhaseFIRInit (K : ℕ) (window : WindowArg) : Except PyErr FirModule :=
  if windowNameOk window then .ok (.plain K (resolveWindow window))
  else .error .configurationError

/-- Modelled from the spec (§4.1, §4.2, §7): `ZeroPhaseFilterBankFIR`
construction validates the scale and window names, resolves an omitted
`f_max` to `sr / 2` (Nyquist), and fails with a `ConfigurationError` when
both `f_max` and `sr` are omitted. -/
noncomputable def zeroPhaseFilterBankFIRInit (K : ℕ) (scale : String)
    (n_filters : ℕ) (f_min : ℝ) (f_max : Option ℝ) (sr : Option ℝ)
    (window : WindowArg) (fbMatrix : ℕ → ℕ → ℝ) : Except PyErr FBConfig :=
  if ¬ validScales.contains scale then .error .configurationError
  else if ¬ windowNameOk window then .error .configurationError
  else
    match f_max, sr with
    | some fm, _ => .ok ⟨scale, n_filters, f_min, fm, resolveWindow window, fbMatrix, K⟩
    | none, some s => .ok ⟨scale, n_filters, f_min, s / 2, resolveWindow window, fbMatrix, K⟩
    | none, none => .error .configurationError

/-- Modelled from the spec (§4.2): the filterbank expansion
`H_log = sqrt(M * exp(H_fb) + eps)` with the spec's default stabilizer
`eps = 1e-7`. -/
noncomputable def fbExpand (cfg : FBConfig) (c : List ℝ) : List ℝ :=
  (List.range cfg.K).map fun k =>
    Real.sqrt ((∑ j ∈ Finset.range cfg.n_filters,
      cfg.fbMatrix k j * Real.exp (c.getD j 0)) + 1e-7)

/-- Modelled from the spec (§4.2): applying the FIR submodule to a batch
of per-channel parameter vectors: shape-check every channel against the
configured bin count, then synthesize one kernel per channel. -/
noncomputable def firApply (m : FirModule) (lm : List (List ℝ)) :
    Except PyErr (List (List ℝ)) :=
  match m with
  | .plain K w =>
      if lm.all fun c => c.length = K then
        .ok (lm.map fun c => zeroPhaseFIRKernel K w c)
      else .error .shapeError
  | .filterbank cfg =>
      if lm.all fun c => c.length = cfg.n_filters then
        .ok (lm.map fun c => zeroPhaseFIRKernel cfg.K cfg.window (fbExpand cfg c))
      else .error .shapeError

/-- The state of a constructed `ZeroPhaseFIREqualizer`
(src eq.py lines 37-40). -/
structure ZPState where
  num_magnitude_bins : ℕ
  window : ℤ → ℝ

/-- Modelled from the spec (§4.2): `ZeroPhaseFIR.__call__` shape-checks
the log-magnitude vector and synthesizes the kernel. -/
noncomputable def zeroPhaseFIRCall (K : ℕ) (w : ℤ → ℝ) (lm : List ℝ) :
    Except PyErr (List ℝ) :=
  if lm.length = K then .ok (zeroPhaseFIRKernel K w lm) else .error .shapeError

/-- `ZeroPhaseFIREqualizer.forward` (src eq.py lines 42-57): synthesize a
single kernel from the log-magnitude vector and convolve every input
channel with it. -/
noncomputable def zpForward (st : ZPState) (x : List (List ℝ)) (lm : List ℝ) :
    Except PyErr (List (List ℝ)) :=
  match zeroPhaseFIRCall st.num_magnitude_bins st.window lm with
  | .error e => .error e
  | .ok fir => .ok (x.map fun c => zconv c fir)

/-- `ZeroPhaseFIREqualizer.parameter_size` (src eq.py lines 59-64). -/
def zpParameterSize (st : ZPState) : List (String × ℕ) :=
  [("log_magnitude", st.num_magnitude_bins)]

/-- The state of a constructed `NewZeroPhaseFIREqualizer`.  The fields are
exactly the attributes assigned somewhere in the class: an `Option` field
models a Python attribute that a code path can leave unassigned (reading
it then raises `AttributeError`). -/
structure NewZPState where
  n_frequency_bins : ℕ
  n_filters : ℕ
  eq_channel : String
  eps : ℝ
  fir : FirModule
  use_filterbank : Option Bool
  process : Option ChanMode

/-- The `match` on `eq_channel` in `NewZeroPhaseFIREqualizer.__init__`
(src eq.py lines 161-167): its arms cover only the four known names and it
has no default arm, so an unknown name selects no strategy at all (the
attribute stays unassigned, modelled by `none`). -/
def chanModeOf (eq_channel : String) : Option ChanMode :=
  match eq_channel with
  | "mono" => some .monoStereo
  | "stereo" => some .monoStereo
  | "midside" => some .midside
  | "pseudo_midside" => some .pseudoMidside
  | _ => none

/-- `NewZeroPhaseFIREqualizer.__init__` (src eq.py lines 128-167).  The
source stores `n_frequency_bins`, `n_filters`, `eq_channel` and `eps`,
constructs `self.fir`, and selects `self.process` by a `match` on
`eq_channel` whose arms cover only the four known names — an unknown name
leaves `self.process` unassigned (`none`), and the constructor still
succeeds.  The source never assigns `self.use_filterbank` on any path, so
that field is `none` in every constructed state. -/
noncomputable def newZPInit (n_frequency_bins : ℕ) (eq_channel : String)
    (use_filterbank : Bool) (scale : String) (n_filters : ℕ) (f_min : ℝ)
    (f_max : Option ℝ) (sr : Option ℝ) (eps : ℝ) (window : WindowArg)
    (fbMatrix : ℕ → ℕ → ℝ) : Except PyErr NewZPState :=
  match (if use_filterbank then
      (zeroPhaseFilterBankFIRInit n_frequency_bins scale n_filters f_min f_max sr
        window fbMatrix).map FirModule.filterbank
    else
      zeroPhaseFIRInit n_frequency_bins window) with
  | .error e => .error e
  | .ok fir =>
      .ok { n_frequency_bins := n_frequency_bins, n_filters := n_filters,
            eq_channel := eq_channel, eps := eps, fir := fir,
            use_filterbank := none, process := chanModeOf eq_channel }

/-- `NewZeroPhaseFIREqualizer.forward` (src eq.py lines 169-184): first
`self.fir(log_magnitude)`, then `self.process(input_signals, fir)`; if
`self.process` was never assigned, looking it up raises `AttributeError`. -/
noncomputable def newZPForward (st : NewZPState) (x : List (List ℝ))
    (lm : List (List ℝ)) : Except PyErr (List (List ℝ)) :=
  match firApply st.fir lm with
  | .error e => .error e
  | .ok fir =>
      match st.process with
      | none => .error .attributeError
      | some m => .ok (processApply m x fir)

/-- `NewZeroPhaseFIREqualizer.parameter_size` (src eq.py lines 186-197).
Line 191 reads `self.use_filterbank` before anything else; since
`__init__` never assigns that attribute, the read raises
`AttributeError`.  The remaining lines are the `match` on `eq_channel`
whose arms cover `"mono"`, `"stereo"` and `"midside"` only; for
`"pseudo_midside"` the local `n_channels` stays unbound and line 197
raises `UnboundLocalError` (a `NameError`). -/
def newZPParameterSize (st : NewZPState) :
    Except PyErr (List (String × ℕ × ℕ)) :=
  match st.use_filterbank with
  | none => .error .attributeError
  | some ufb =>
    let n_bins := if ufb then st.n_filters else st.n_frequency_bins
    match st.eq_channel with
    | "mono" => .ok [("log_energy", (1, n_bins))]
    | "stereo" => .ok [("log_energy", (2, n_bins))]
    | "midside" => .ok [("log_energy", (2, n_bins))]
    | _ => .error .nameError

/-! ## Graphic equalizer -/

/-- One second-order section (numerator `b0 b1 b2`, denominator
`a0 a1 a2`), spec §3 BiquadSection. -/
structure Biquad (α : Type) where
  b0 : α
  b1 : α
  b2 : α
  a0 : α
  a1 : α
  a2 : α

/-- Modelled from the spec (§4.3): the beta stability term
`beta = sqrt(|gt^2 - 1| / |g^2 - gt^2|) * tan(B/2)` with
`g = exp(log_gain)` and the neighbor gain `gt = g^0.4`, written
`exp(0.4 * log_gain)` (equal to the 0.4-power of the positive `g`).  The
`g = 1` (0 dB) band is special-cased to `beta = 0`, exactly as the spec's
edge-case clause directs, so the inner fraction is never 0/0. -/
noncomputable def geqBeta (lg bw : ℝ) : ℝ :=
  let g := Real.exp lg
  let gt := Real.exp (0.4 * lg)
  if g = 1 then 0
  else Real.sqrt (|gt ^ 2 - 1| / |g ^ 2 - gt ^ 2|) * Real.tan (bw / 2)

/-- Modelled from the spec (§4.3 and the transfer function in the
`GraphicEqualizer` docstring, src eq.py lines 222-235): one peaking biquad
section for a band with log-gain `lg`, center frequency `om` and bandwidth
`bw` (both in radians). -/
noncomputable def geqSection (lg om bw : ℝ) : Biquad ℝ :=
  let g := Real.exp lg
  let beta := geqBeta lg bw
  ⟨1 + g * beta, -2 * Real.cos om, 1 - g * beta,
   1 + beta, -2 * Real.cos om, 1 - beta⟩

/-- Modelled from the spec (§4.3): the designer pairs the per-band
`(center frequency, bandwidth)` table of the configured frequency scale
with the log-gains, one section per band in ascending band order. -/
noncomputable def geqDesign (bands : List (ℝ × ℝ)) (lgs : List ℝ) :
    List (Biquad ℝ) :=
  List.zipWith (fun b lg => geqSection lg b.1 b.2) bands lgs

section Backend

variable {α : Type} [Field α]

/-- Modelled from the spec (§4.4, exact mode): direct-form recursive
filtering; the four state arguments carry the two previous inputs and the
two previous outputs. -/
def lfilterAux (b0 b1 b2 a1 a2 : α) : α → α → α → α → List α → List α
  | _, _, _, _, [] => []
  | x1, x2, y1, y2, xn :: rest =>
      let yn := b0 * xn + b1 * x1 + b2 * x2 - a1 * y1 - a2 * y2
      yn :: lfilterAux b0 b1 b2 a1 a2 xn x1 yn y1 rest

/-- Modelled from the spec (§4.4): one biquad section applied in exact
(`lfilter`) mode, coefficients normalized by `a0`, zero initial state. -/
def biquadExact (s : Biquad α) (x : List α) : List α :=
  lfilterAux (s.b0 / s.a0) (s.b1 / s.a0) (s.b2 / s.a0) (s.a1 / s.a0)
    (s.a2 / s.a0) 0 0 0 0 x

/-- Modelled from the spec (§3, §4.4): the cascade applies its sections in
series, in band order. -/
def cascadeExact (secs : List (Biquad α)) (x : List α) : List α :=
  secs.foldl (fun sig s => biquadExact s sig) x

end Backend

/-- Modelled from the spec (§4.4, FSM mode): one biquad section's transfer
function evaluated on the unit circle at angular frequency `th`,
`H(z) = (b0 + b1 z⁻¹ + b2 z⁻²) / (a0 + a1 z⁻¹ + a2 z⁻²)` at
`z = exp(i th)`. -/
noncomputable def biquadFreqResponse (s : Biquad ℝ) (th : ℝ) : ℂ :=
  let zi : ℂ := Complex.exp (-(Complex.I * th))
  ((s.b0 : ℂ) + s.b1 * zi + s.b2 * zi ^ 2) /
    ((s.a0 : ℂ) + s.a1 * zi + s.a2 * zi ^ 2)

/-- Modelled from the spec (§4.4, FSM mode): the cascade's combined
frequency response, the product of the sections' responses. -/
noncomputable def cascadeFreqResponse (secs : List (Biquad ℝ)) (th : ℝ) : ℂ :=
  (secs.map fun s => biquadFreqResponse s th).prod

/-- Modelled from the spec (§4.4, FSM mode): sample the cascade response
at `L` uniformly spaced frequencies, inverse-transform (inverse DFT, real
part) to obtain the length-`L` FIR approximation. -/
noncomputable def fsmKernel (secs : List (Biquad ℝ)) (L : ℕ) : List ℝ :=
  (List.range L).map fun t : ℕ =>
    ((1 : ℝ) / L) * ∑ j ∈ Finset.range L,
      (cascadeFreqResponse secs (2 * Real.pi * j / L) *
        Complex.exp (2 * Real.pi * Complex.I * j * t / L)).re

/-- Modelled from the spec (§4.4, FSM mode): apply the FIR approximation
as a zero-phase-style linear convolution. -/
noncomputable def cascadeFSM (secs : List (Biquad ℝ)) (L : ℕ) (x : List ℝ) :
    List ℝ :=
  zconv x (fsmKernel secs L)

/-- The backend choice of `BiquadFilterBackend` (src eq.py lines 249-253,
spec §4.4): the frequency-sampling method `"fsm"` with its FIR length (the
source default, `fsm_fir_len = 8192`) or the exact time-domain
`"lfilter"`. -/
inductive BackendMode where
  | exact
  | fsm (fsm_fir_len : ℕ)

/-- Apply the configured backend to one channel. -/
noncomputable def biquadBackendApply (bk : BackendMode)
    (secs : List (Biquad ℝ)) (c : List ℝ) : List ℝ :=
  match bk with
  | .exact => cascadeExact secs c
  | .fsm L => cascadeFSM secs L c

/-- The configuration of a constructed `GraphicEqualizer`
(src eq.py lines 256-265): the per-band `(center frequency, bandwidth)`
table determined by the chosen frequency scale and sampling rate, and the
configured backend (`"fsm"` by default, or the exact `"lfilter"`). -/
structure GEQState where
  bands : List (ℝ × ℝ)
  backend : BackendMode

/-- Modelled from the spec (§4.3 Failure): `GraphicEqualizerBiquad`
shape-checks the log-gain vector against the number of bands of the
configured scale, then designs the cascade. -/
noncomputable def geqDesignChecked (bands : List (ℝ × ℝ)) (lgs : List ℝ) :
    Except PyErr (List (Biquad ℝ)) :=
  if lgs.length = bands.length then .ok (geqDesign bands lgs)
  else .error .shapeError

/-- `GraphicEqualizer.forward` (src eq.py lines 267-282): design the
cascade from the log-gains, then filter every channel through it with the
configured backend. -/
noncomputable def geqForward (st : GEQState) (x : List (List ℝ))
    (lgs : List ℝ) : Except PyErr (List (List ℝ)) :=
  match geqDesignChecked st.bands lgs with
  | .error e => .error e
  | .ok secs => .ok (x.map fun c => biquadBackendApply st.backend secs c)

/-- `GraphicEqualizer.parameter_size` (src eq.py lines 284-291). -/
def geqParameterSize (st : GEQState) : List (String × ℕ × ℕ) :=
  [("log_gains", (2, st.bands.length))]

/-! ## Nonlinear processors (src nonlinear.py) -/

/-- The configuration shared by `PowerDistortion.__init__` (src
nonlinear.py lines 244-256) and `ChebyshevDistortion.__init__` (lines
319-327): both assert `max_order > 1` and store the flags. -/
structure DistCfg where
  max_order : ℕ
  pre_gain : Bool
  remove_dc : Bool
  use_tanh : Bool
  deriving DecidableEq, Repr

/-- Mean of one channel (`tensor.mean(-1)`). -/
noncomputable def meanL (c : List ℝ) : ℝ := c.sum / c.length

/-- `input_signals - input_signals.mean(-1, keepdims=True)`
(src nonlinear.py line 343). -/
noncomputable def removeDC (x : List (List ℝ)) : List (List ℝ) :=
  x.map fun c => c.map fun v => v - meanL c

/-- Calling a `torch.Size`: `basis_weights.shape(-1)` in
`ChebyshevDistortion.apply_distortion` (src nonlinear.py line 357) calls
the tensor's `shape` attribute; a `torch.Size` is a tuple and is not
callable, so Python raises a `TypeError`. -/
def torchSizeCall (_dims : List ℕ) (_arg : ℤ) : Except PyErr ℕ :=
  .error .typeError

/-- The Chebyshev recursion of `ChebyshevDistortion.apply_distortion`
(src nonlinear.py lines 362-367): `T 0 = 1`, `T 1 = u`,
`T k = 2 u T (k-1) - T (k-2)`. -/
def chebT (u : ℝ) : ℕ → ℝ
  | 0 => 1
  | 1 => u
  | k + 2 => 2 * u * chebT u (k + 1) - chebT u k

/-- The weighted Chebyshev sum computed per sample by `apply_distortion`
after the `max_order` lookup (src nonlinear.py lines 358-374). -/
noncomputable def chebSum (maxOrder : ℕ) (w : ℕ → ℝ) (useTanh : Bool)
    (u : ℝ) : ℝ :=
  ∑ k ∈ Finset.range maxOrder,
    w k * (if useTanh then Real.tanh (chebT u k) else chebT u k)

/-- `ChebyshevDistortion.apply_distortion` (src nonlinear.py lines
355-374): its first line `max_order = basis_weights.shape(-1)` calls the
non-callable `shape` attribute, so the whole call raises `TypeError`
before the recursion below it can run. -/
noncomputable def chebApplyDistortion (x : List (List ℝ)) (bw : List ℝ)
    (useTanh : Bool) : Except PyErr (List (List ℝ)) :=
  match torchSizeCall [bw.length] (-1) with
  | .error e => .error e
  | .ok maxOrder =>
      .ok (x.map fun c => c.map fun u =>
        chebSum maxOrder (fun k => bw.getD k 0) useTanh u)

/-- `ChebyshevDistortion.forward` (src nonlinear.py lines 329-353):
optional DC removal and pre-gain, `tanh` squashing of the basis weights,
then `apply_distortion`. -/
noncomputable def chebForward (cfg : DistCfg) (x : List (List ℝ))
    (bw : List ℝ) (log_pre_gain : ℝ) : Except PyErr (List (List ℝ)) :=
  let x1 := if cfg.remove_dc then removeDC x else x
  let x2 := if cfg.pre_gain then
      x1.map fun c => c.map fun v => v * Real.exp log_pre_gain
    else x1
  let bwt := bw.map Real.tanh
  chebApplyDistortion x2 bwt cfg.use_tanh

/-- A Python container value: a dict (what the docstrings promise) or a
set (what the set literal `{"basis_weights", self.max_order}` builds);
the set's elements are a string or an integer. -/
inductive PyContainer where
  | pydict (entries : List (String × ℕ))
  | pyset (elems : List (String ⊕ ℕ))
  deriving DecidableEq, Repr

/-- Python item assignment `c[k] = v`: supported by dicts; on a set it
raises `TypeError` ('set' object does not support item assignment). -/
def pySetItem (c : PyContainer) (k : String) (v : ℕ) :
    Except PyErr PyContainer :=
  match c with
  | .pydict es => .ok (.pydict (es ++ [(k, v)]))
  | .pyset _ => .error .typeError

/-- `PowerDistortion.parameter_size` (src nonlinear.py lines 287-295):
`size = {"basis_weights", self.max_order}` builds a set, and
`size["log_pre_gain"] = 1` is then attempted when `pre_gain` is set. -/
def powerParameterSize (cfg : DistCfg) : Except PyErr PyContainer :=
  let size := PyContainer.pyset [.inl "basis_weights", .inr cfg.max_order]
  if cfg.pre_gain then
    match pySetItem size "log_pre_gain" 1 with
    | .error e => .error e
    | .ok size1 => .ok size1
  else
    .ok size

/-- `ChebyshevDistortion.parameter_size` (src nonlinear.py lines 376-384),
textually identical to `PowerDistortion.parameter_size`. -/
def chebParameterSize (cfg : DistCfg) : Except PyErr PyContainer :=
  let size := PyContainer.pyset [.inl "basis_weights", .inr cfg.max_order]
  if cfg.pre_gain then
    match pySetItem size "log_pre_gain" 1 with
    | .error e => .error e
    | .ok size1 => .ok size1
  else
    .ok size

/-! ## Helper lemmas -/

/-- Indexing into a mapped range. -/
theorem map_range_getD {β : Type} (L : ℕ) (f : ℕ → β) (d : β) (i : ℕ)
    (hi : i < L) : ((List.range L).map f).getD i d = f i := by
  rw [List.getD_eq_getElem?_getD, List.getElem?_map, List.getElem?_range hi]
  rfl

/-! ## C9 and C10: the nonlinear processors -/

/-- C9: for every input to `ChebyshevDistortion.forward` (any
configuration with `max_order > 1`, any signal, basis weights and
pre-gain), the call raises `TypeError`, because `apply_distortion` begins
by calling the non-callable `shape` attribute; the processor can never
return a signal. -/
theorem C9_cheb_forward_always_type_error (cfg : DistCfg)
    (_hord : 1 < cfg.max_order) (x : List (List ℝ)) (bw : List ℝ)
    (lpg : ℝ) : chebForward cfg x bw lpg = .error .typeError := rfl

/-- Witness for C9 at a concrete configuration and input. -/
theorem C9_witness :
    1 < (DistCfg.mk 2 true false false).max_order ∧
      chebForward (DistCfg.mk 2 true false false) [[1]] [0, 0] 0 =
        .error .typeError :=
  ⟨by decide, C9_cheb_forward_always_type_error _ (by decide) [[1]] [0, 0] 0⟩

/-- C10: for `PowerDistortion` and `ChebyshevDistortion` constructed with
`pre_gain = True` (the default), `parameter_size` raises `TypeError`: the
container is created as the set literal and then item-assigned. -/
theorem C10_parameter_size_type_error (mo co : ℕ) (rd ut rd2 ut2 : Bool) :
    powerParameterSize (DistCfg.mk mo true rd ut) = .error .typeError ∧
      chebParameterSize (DistCfg.mk co true rd2 ut2) = .error .typeError :=
  ⟨rfl, rfl⟩

/-! ## C1: `NewZeroPhaseFIREqualizer.parameter_size` always raises -/

/-- C1 (code bug): for every configuration accepted by
`NewZeroPhaseFIREqualizer.__init__`, calling `parameter_size` raises
`AttributeError` instead of returning the promised dictionary, because
`__init__` never assigns `self.use_filterbank` while line 191 of
`parameter_size` reads it. -/
theorem C1_new_zp_parameter_size_raises (nfb : ℕ) (ec : String) (ufb : Bool)
    (sc : String) (nf : ℕ) (fmin : ℝ) (fmax sr : Option ℝ) (eps : ℝ)
    (w : WindowArg) (M : ℕ → ℕ → ℝ) (st : NewZPState)
    (h : newZPInit nfb ec ufb sc nf fmin fmax sr eps w M = .ok st) :
    newZPParameterSize st = .error .attributeError := by
  have husf : st.use_filterbank = none := by
    unfold newZPInit at h
    cases hf : (if ufb then
        (zeroPhaseFilterBankFIRInit nfb sc nf fmin fmax sr w M).map
          FirModule.filterbank
      else zeroPhaseFIRInit nfb w) with
    | error e => rw [hf] at h; exact absurd h (by simp)
    | ok f =>
        rw [hf] at h
        simp only [Except.ok.injEq] at h
        rw [← h]
  unfold newZPParameterSize
  rw [husf]

/-- The state produced by a default-like construction of
`NewZeroPhaseFIREqualizer` with one frequency bin. -/
def c1State : NewZPState :=
  ⟨1, 80, "mono", 0, .plain 1 (namedWindow "hann"), none, some .monoStereo⟩

/-- Witness for C1: the concrete construction succeeds and its
`parameter_size` raises `AttributeError`. -/
theorem C1_witness :
    newZPInit 1 "mono" false "bark_traunmuller" 80 40 none none 0
        (.named "hann") (fun _ _ => 0) = .ok c1State ∧
      newZPParameterSize c1State = .error .attributeError :=
  ⟨rfl, C1_new_zp_parameter_size_raises 1 "mono" false "bark_traunmuller" 80
    40 none none 0 (.named "hann") (fun _ _ => 0) c1State rfl⟩

/-! ## C3: the synthesized kernel is symmetric about its center tap -/

/-- C3: for every log-magnitude input (as a function or as a vector) the
synthesized zero-phase FIR kernel is symmetric about its center tap,
independent of the input values, provided only the configured window is
zero-centered (symmetric): `h[-n] = h[n]` at the centered tap index, and
at list level `kernel[(K-1) + j] = kernel[(K-1) - j]` about the center
index `K - 1`.  The caller controls only the magnitude response, never the
phase. -/
theorem C3_zero_phase_kernel_symmetric (K : ℕ) (w : ℤ → ℝ)
    (hw : ∀ m : ℤ, w (-m) = w m) :
    (∀ (lm : ℕ → ℝ) (n : ℤ),
        zeroPhaseFIRTap K w lm (-n) = zeroPhaseFIRTap K w lm n) ∧
      ∀ (lm : List ℝ) (j : ℕ), j < K →
        (zeroPhaseFIRKernel K w lm).getD (K - 1 + j) 0 =
          (zeroPhaseFIRKernel K w lm).getD (K - 1 - j) 0 := by
  have tap : ∀ (lm : ℕ → ℝ) (n : ℤ),
      zeroPhaseFIRTap K w lm (-n) = zeroPhaseFIRTap K w lm n := by
    intro lm n
    unfold zeroPhaseFIRTap
    rw [hw n]
    congr 1
    apply Finset.sum_congr rfl
    intro k _
    congr 1
    push_cast
    rw [mul_neg, neg_div, Real.cos_neg]
  refine ⟨tap, ?_⟩
  intro lm j hj
  have hK : 1 ≤ K := Nat.one_le_of_lt (Nat.lt_of_le_of_lt (Nat.zero_le j) hj)
  have h1 : K - 1 + j < 2 * K - 1 := by omega
  have h2 : K - 1 - j < 2 * K - 1 := by omega
  unfold zeroPhaseFIRKernel
  rw [map_range_getD _ _ _ _ h1, map_range_getD _ _ _ _ h2]
  have e1 : ((K - 1 + j : ℕ) : ℤ) - ((K : ℤ) - 1) = (j : ℤ) := by
    push_cast [hK]
    omega
  have e2 : ((K - 1 - j : ℕ) : ℤ) - ((K : ℤ) - 1) = -(j : ℤ) := by
    have hj1 : j ≤ K - 1 := by omega
    push_cast [hK, hj1]
    omega
  rw [e1, e2]
  exact (tap _ (j : ℤ)).symm

/-- Witness for C3: the constant window is symmetric, and the kernel for
three magnitude bins is symmetric about its center. -/
theorem C3_witness :
    (∀ m : ℤ, (fun _ : ℤ => (1 : ℝ)) (-m) = (fun _ : ℤ => (1 : ℝ)) m) ∧
      ((∀ (lm : ℕ → ℝ) (n : ℤ),
          zeroPhaseFIRTap 3 (fun _ => 1) lm (-n) =
            zeroPhaseFIRTap 3 (fun _ => 1) lm n) ∧
        ∀ (lm : List ℝ) (j : ℕ), j < 3 →
          (zeroPhaseFIRKernel 3 (fun _ => 1) lm).getD (3 - 1 + j) 0 =
            (zeroPhaseFIRKernel 3 (fun _ => 1) lm).getD (3 - 1 - j) 0) :=
  ⟨fun _ => rfl, C3_zero_phase_kernel_symmetric 3 (fun _ => 1) fun _ => rfl⟩

/-! ## C4: mid/side round trip -/

/-- Zipping two zips of the same pair of lists is a zip of the combined
function. -/
theorem zipWith_zipWith_same {α β : Type} (f : β → β → β) (g h : α → α → β) :
    ∀ (a b : List α),
      List.zipWith f (List.zipWith g a b) (List.zipWith h a b) =
        List.zipWith (fun x y => f (g x y) (h x y)) a b := by
  intro a
  induction a with
  | nil => intro b; simp
  | cons x xs ih =>
      intro b
      cases b with
      | nil => simp
      | cons y ys => simp [ih ys]

/-- A zip that ignores its second argument pointwise returns its first
argument, when the lengths agree. -/
theorem zipWith_eq_left {α : Type} (f : α → α → α) (hf : ∀ x y, f x y = x) :
    ∀ (a b : List α), a.length = b.length → List.zipWith f a b = a := by
  intro a
  induction a with
  | nil => intro b _; simp
  | cons x xs ih =>
      intro b hab
      cases b with
      | nil => simp at hab
      | cons y ys =>
          simp only [List.zipWith_cons_cons, hf]
          exact congrArg (x :: ·) (ih ys (by simpa using hab))

/-- A zip that ignores its first argument pointwise returns its second
argument, when the lengths agree. -/
theorem zipWith_eq_right {α : Type} (f : α → α → α) (hf : ∀ x y, f x y = y) :
    ∀ (a b : List α), a.length = b.length → List.zipWith f a b = b := by
  intro a
  induction a with
  | nil =>
      intro b hab
      cases b with
      | nil => simp
      | cons y ys => simp at hab
  | cons x xs ih =>
      intro b hab
      cases b with
      | nil => simp at hab
      | cons y ys =>
          simp only [List.zipWith_cons_cons, hf]
          exact congrArg (y :: ·) (ih ys (by simpa using hab))

/-- Pointwise-equal mixing functions give equal zips. -/
theorem zipWith_congr_fun {α β : Type} (f g : α → α → β)
    (hfg : ∀ x y, f x y = g x y) :
    ∀ (a b : List α), List.zipWith f a b = List.zipWith g a b := by
  intro a
  induction a with
  | nil => intro b; simp
  | cons x xs ih =>
      intro b
      cases b with
      | nil => simp
      | cons y ys => simp [hfg, ih ys]

section C4Helpers

variable {α : Type} [Field α]

/-- Halving a zip is a zip of the halved mix. -/
theorem halfL_zipWith (g : α → α → α) (a b : List α) :
    halfL (List.zipWith g a b) = List.zipWith (fun x y => g x y / 2) a b := by
  unfold halfL
  rw [List.map_zipWith]

end C4Helpers

/-- C4: the mid/side transforms are mutually inverse on every 2-channel
signal: `ms_to_lr (lr_to_ms x) = x` and `lr_to_ms (ms_to_lr x) = x`,
exactly (the transforms are linear, memoryless, per-sample channel
mixes). -/
theorem C4_midside_roundtrip (a b : List ℝ) (hab : a.length = b.length) :
    ms_to_lr (lr_to_ms [a, b]) = [a, b] ∧
      lr_to_ms (ms_to_lr [a, b]) = [a, b] := by
  constructor
  · show [halfL (addL (addL a b) (subL a b)),
          halfL (subL (addL a b) (subL a b))] = [a, b]
    have h1 : halfL (addL (addL a b) (subL a b)) = a := by
      unfold addL subL
      rw [zipWith_zipWith_same, halfL_zipWith]
      exact zipWith_eq_left _ (fun x y => by ring) a b hab
    have h2 : halfL (subL (addL a b) (subL a b)) = b := by
      unfold addL subL
      rw [zipWith_zipWith_same, halfL_zipWith]
      rw [zipWith_congr_fun _ (fun x y => y) (fun x y => by ring)]
      exact zipWith_eq_right _ (fun _ _ => rfl) a b hab
    rw [h1, h2]
  · show [addL (halfL (addL a b)) (halfL (subL a b)),
          subL (halfL (addL a b)) (halfL (subL a b))] = [a, b]
    have h1 : addL (halfL (addL a b)) (halfL (subL a b)) = a := by
      unfold addL subL
      rw [halfL_zipWith, halfL_zipWith]
      show List.zipWith (· + ·) _ _ = a
      rw [zipWith_zipWith_same]
      exact zipWith_eq_left _ (fun x y => by ring) a b hab
    have h2 : subL (halfL (addL a b)) (halfL (subL a b)) = b := by
      unfold addL subL
      rw [halfL_zipWith, halfL_zipWith]
      show List.zipWith (· - ·) _ _ = b
      rw [zipWith_zipWith_same]
      rw [zipWith_congr_fun _ (fun x y => y) (fun x y => by ring)]
      exact zipWith_eq_right _ (fun _ _ => rfl) a b hab
    rw [h1, h2]

/-- Witness for C4 on a concrete 2-channel signal. -/
theorem C4_witness :
    ([(3 : ℝ), 5] : List ℝ).length = ([2, -1] : List ℝ).length ∧
      (ms_to_lr (lr_to_ms [[(3 : ℝ), 5], [2, -1]]) = [[3, 5], [2, -1]] ∧
        lr_to_ms (ms_to_lr [[(3 : ℝ), 5], [2, -1]]) = [[3, 5], [2, -1]]) :=
  ⟨by decide, C4_midside_roundtrip [3, 5] [2, -1] (by decide)⟩

/-! ## C5: unity-gain graphic EQ is the identity -/

/-- At zero log-gain the beta term is exactly zero (the special-cased
branch), so no division by zero is performed. -/
theorem geqBeta_zero (bw : ℝ) : geqBeta 0 bw = 0 := by
  unfold geqBeta
  simp [Real.exp_zero]

/-- At zero log-gain the designed section has its numerator equal to its
denominator. -/
theorem geqSection_zero (om bw : ℝ) :
    geqSection 0 om bw = ⟨1, -2 * Real.cos om, 1, 1, -2 * Real.cos om, 1⟩ := by
  unfold geqSection
  rw [geqBeta_zero]
  simp [Real.exp_zero]

/-- A recursive filter whose numerator equals its denominator passes its
input through unchanged, by induction with the invariant that the two
previous outputs equal the two previous inputs. -/
theorem lfilterAux_identity {α : Type} [Field α] (r1 r2 : α) :
    ∀ (x : List α) (x1 x2 : α),
      lfilterAux 1 r1 r2 r1 r2 x1 x2 x1 x2 x = x := by
  intro x
  induction x with
  | nil => intro x1 x2; rfl
  | cons xn rest ih =>
      intro x1 x2
      show (1 * xn + r1 * x1 + r2 * x2 - r1 * x1 - r2 * x2) ::
          lfilterAux 1 r1 r2 r1 r2 xn x1
            (1 * xn + r1 * x1 + r2 * x2 - r1 * x1 - r2 * x2) x1 rest =
        xn :: rest
      have hyn : 1 * xn + r1 * x1 + r2 * x2 - r1 * x1 - r2 * x2 = xn := by
        ring
      rw [hyn]
      exact congrArg (xn :: ·) (ih xn x1)

/-- The section designed for a zero log-gain band is an exact
pass-through in exact (`lfilter`) mode. -/
theorem biquadExact_zero_gain (om bw : ℝ) (x : List ℝ) :
    biquadExact (geqSection 0 om bw) x = x := by
  rw [geqSection_zero]
  unfold biquadExact
  simp only [div_one]
  exact lfilterAux_identity _ _ x 0 0

/-- C5: the zero-log-gain band is special-cased so that its beta term is
exactly zero (no division by zero), the designed section is an identity
pass-through (numerator equals denominator), and for the all-zero log-gain
vector the whole designed cascade applied in exact mode returns the input
signal unchanged, for every band table and every signal. -/
theorem C5_unity_gain_identity (bands : List (ℝ × ℝ)) (x : List ℝ) :
    (∀ bw : ℝ, geqBeta 0 bw = 0) ∧
      (∀ om bw : ℝ,
        ((geqSection 0 om bw).b0, (geqSection 0 om bw).b1,
            (geqSection 0 om bw).b2) =
          ((geqSection 0 om bw).a0, (geqSection 0 om bw).a1,
            (geqSection 0 om bw).a2)) ∧
      cascadeExact (geqDesign bands (bands.map fun _ => 0)) x = x := by
  refine ⟨geqBeta_zero, fun om bw => by rw [geqSection_zero], ?_⟩
  induction bands generalizing x with
  | nil => rfl
  | cons bd rest ih =>
      have hdes : geqDesign (bd :: rest) ((bd :: rest).map fun _ => (0 : ℝ)) =
          geqSection 0 bd.1 bd.2 :: geqDesign rest (rest.map fun _ => 0) := rfl
      rw [hdes]
      show cascadeExact _ _ = x
      unfold cascadeExact
      rw [List.foldl_cons]
      have : biquadExact (geqSection 0 bd.1 bd.2) x = x :=
        biquadExact_zero_gain bd.1 bd.2 x
      rw [this]
      exact ih x

/-! ## The FIR submodule's shape contract, over both variants -/

/-- The configuration-derived expected per-channel parameter length of an
FIR submodule: the number of magnitude bins for the plain variant, the
number of filterbank bins for the filterbank variant. -/
def firBins : FirModule → ℕ
  | .plain K _ => K
  | .filterbank cfg => cfg.n_filters

/-- Applying the plain FIR submodule to parameter channels that all have
the configured length succeeds. -/
theorem firApply_plain_ok (K : ℕ) (w : ℤ → ℝ) (lm : List (List ℝ))
    (h : ∀ c ∈ lm, c.length = K) :
    firApply (.plain K w) lm =
      .ok (lm.map fun c => zeroPhaseFIRKernel K w c) := by
  have hall : (lm.all fun c => decide (c.length = K)) = true := by
    rw [List.all_eq_true]
    intro c hc
    simpa using h c hc
  simp only [firApply]
  rw [if_pos hall]

/-- Applying the filterbank FIR submodule to parameter channels that all
have the configured number of filterbank bins succeeds. -/
theorem firApply_filterbank_ok (cfg : FBConfig) (lm : List (List ℝ))
    (h : ∀ c ∈ lm, c.length = cfg.n_filters) :
    firApply (.filterbank cfg) lm =
      .ok (lm.map fun c =>
        zeroPhaseFIRKernel cfg.K cfg.window (fbExpand cfg c)) := by
  have hall : (lm.all fun c => decide (c.length = cfg.n_filters)) = true := by
    rw [List.all_eq_true]
    intro c hc
    simpa using h c hc
  simp only [firApply]
  rw [if_pos hall]

/-- Either FIR submodule accepts parameter channels of its
configuration-derived length and returns one kernel per channel. -/
theorem firApply_ok_of_valid (fm : FirModule) (lm : List (List ℝ))
    (h : ∀ c ∈ lm, c.length = firBins fm) :
    ∃ fir, firApply fm lm = .ok fir ∧ fir.length = lm.length := by
  cases fm with
  | plain K w =>
      exact ⟨_, firApply_plain_ok K w lm (fun c hc => h c hc), by simp⟩
  | filterbank cfg =>
      exact ⟨_, firApply_filterbank_ok cfg lm (fun c hc => h c hc), by simp⟩

/-- Either FIR submodule rejects a parameter batch containing a channel of
the wrong length with a `ShapeError`. -/
theorem firApply_shape_error (fm : FirModule) (lm : List (List ℝ))
    (h : ¬ ∀ c ∈ lm, c.length = firBins fm) :
    firApply fm lm = .error .shapeError := by
  cases fm with
  | plain K w =>
      have hall : ¬ ((lm.all fun c => decide (c.length = K)) = true) := by
        rw [List.all_eq_true]
        intro hx
        exact h fun c hc => by simpa using hx c hc
      simp only [firApply]
      rw [if_neg hall]
  | filterbank cfg =>
      have hall : ¬ ((lm.all fun c =>
          decide (c.length = cfg.n_filters)) = true) := by
        rw [List.all_eq_true]
        intro hx
        exact h fun c hc => by simpa using hx c hc
      simp only [firApply]
      rw [if_neg hall]

/-! ## C6: wrong-length parameters raise ShapeError, later calls succeed -/

/-- C6: calling an equalizer with a parameter vector whose length differs
from the configuration-derived expected length returns `ShapeError` and no
output buffer at all (the model is pure, so no partial mutation exists),
and the configuration state is not poisoned: on the same state, any
subsequent call with a correctly sized parameter vector succeeds.  Proved
for `GraphicEqualizer` (either backend), `ZeroPhaseFIREqualizer`, and
`NewZeroPhaseFIREqualizer` (both FIR submodule variants, any selected
channel mode). -/
theorem C6_shape_error_no_poison (st : GEQState) (x : List (List ℝ))
    (lgs : List ℝ) (hbad : lgs.length ≠ st.bands.length)
    (stz : ZPState) (lm : List ℝ)
    (hbad2 : lm.length ≠ stz.num_magnitude_bins) :
    (geqForward st x lgs = .error .shapeError ∧
      ∀ lgs2 : List ℝ, lgs2.length = st.bands.length →
        ∃ y, geqForward st x lgs2 = .ok y) ∧
      (zpForward stz x lm = .error .shapeError ∧
        ∀ lm2 : List ℝ, lm2.length = stz.num_magnitude_bins →
          ∃ y, zpForward stz x lm2 = .ok y) ∧
      (∀ (stn : NewZPState) (xn lmn : List (List ℝ)),
          (¬ ∀ c ∈ lmn, c.length = firBins stn.fir) →
          newZPForward stn xn lmn = .error .shapeError) ∧
      ∀ (stn : NewZPState) (m : ChanMode) (xn lmn : List (List ℝ)),
          stn.process = some m →
          (∀ c ∈ lmn, c.length = firBins stn.fir) →
          ∃ y, newZPForward stn xn lmn = .ok y := by
  refine ⟨⟨?_, ?_⟩, ⟨?_, ?_⟩, ?_, ?_⟩
  · have h1 : geqDesignChecked st.bands lgs = .error .shapeError := by
      unfold geqDesignChecked
      rw [if_neg hbad]
    unfold geqForward
    rw [h1]
  · intro lgs2 h2
    have h1 : geqDesignChecked st.bands lgs2 = .ok (geqDesign st.bands lgs2) := by
      unfold geqDesignChecked
      rw [if_pos h2]
    refine ⟨x.map fun c =>
      biquadBackendApply st.backend (geqDesign st.bands lgs2) c, ?_⟩
    unfold geqForward
    rw [h1]
  · have h1 : zeroPhaseFIRCall stz.num_magnitude_bins stz.window lm =
        .error .shapeError := by
      unfold zeroPhaseFIRCall
      rw [if_neg hbad2]
    unfold zpForward
    rw [h1]
  · intro lm2 h2
    have h1 : zeroPhaseFIRCall stz.num_magnitude_bins stz.window lm2 =
        .ok (zeroPhaseFIRKernel stz.num_magnitude_bins stz.window lm2) := by
      unfold zeroPhaseFIRCall
      rw [if_pos h2]
    refine ⟨x.map fun c =>
      zconv c (zeroPhaseFIRKernel stz.num_magnitude_bins stz.window lm2), ?_⟩
    unfold zpForward
    rw [h1]
  · intro stn xn lmn hbad3
    have hfa := firApply_shape_error stn.fir lmn hbad3
    unfold newZPForward
    rw [hfa]
  · intro stn m xn lmn hproc hvalid
    obtain ⟨fir, hfa, _⟩ := firApply_ok_of_valid stn.fir lmn hvalid
    refine ⟨processApply m xn fir, ?_⟩
    unfold newZPForward
    rw [hfa, hproc]

/-- Witness for C6 on concrete one-band / one-bin configurations: empty
or overlong parameter vectors are rejected with `ShapeError`, and the
same states then accept correctly sized vectors; exercised for the
graphic equalizer (fsm backend, the source default), the plain zero-phase
equalizer, and the new equalizer with both the plain and the filterbank
FIR submodules. -/
theorem C6_witness :
    (([] : List ℝ).length ≠
        (GEQState.mk [((0 : ℝ), (0 : ℝ))] (.fsm 8192)).bands.length ∧
        ([] : List ℝ).length ≠ (ZPState.mk 1 fun _ => 1).num_magnitude_bins ∧
        (¬ ∀ c ∈ ([[0, 0]] : List (List ℝ)), c.length =
          firBins (NewZPState.mk 1 1 "mono" 0 (.plain 1 fun _ => 1) none
            (some .monoStereo)).fir) ∧
        ¬ ∀ c ∈ ([[0, 0]] : List (List ℝ)), c.length =
          firBins (NewZPState.mk 1 1 "mono" 0
            (.filterbank ⟨"linear", 1, 0, 1, fun _ => 1, fun _ _ => 0, 1⟩)
            none (some .monoStereo)).fir) ∧
      geqForward (GEQState.mk [((0 : ℝ), (0 : ℝ))] (.fsm 8192)) [[1]] [] =
        .error .shapeError ∧
      (∃ y, geqForward (GEQState.mk [((0 : ℝ), (0 : ℝ))] (.fsm 8192))
        [[1]] [0] = .ok y) ∧
      zpForward (ZPState.mk 1 fun _ => 1) [[1]] [] = .error .shapeError ∧
      (∃ y, zpForward (ZPState.mk 1 fun _ => 1) [[1]] [0] = .ok y) ∧
      newZPForward (NewZPState.mk 1 1 "mono" 0 (.plain 1 fun _ => 1) none
          (some .monoStereo)) [[1]] [[0, 0]] = .error .shapeError ∧
      (∃ y, newZPForward (NewZPState.mk 1 1 "mono" 0 (.plain 1 fun _ => 1)
        none (some .monoStereo)) [[1]] [[0]] = .ok y) ∧
      newZPForward (NewZPState.mk 1 1 "mono" 0
          (.filterbank ⟨"linear", 1, 0, 1, fun _ => 1, fun _ _ => 0, 1⟩)
          none (some .monoStereo)) [[1]] [[0, 0]] = .error .shapeError ∧
      ∃ y, newZPForward (NewZPState.mk 1 1 "mono" 0
          (.filterbank ⟨"linear", 1, 0, 1, fun _ => 1, fun _ _ => 0, 1⟩)
          none (some .monoStereo)) [[1]] [[0]] = .ok y := by
  have h := C6_shape_error_no_poison
    (GEQState.mk [((0 : ℝ), (0 : ℝ))] (.fsm 8192)) [[1]] [] (by decide)
    (ZPState.mk 1 fun _ => 1) [] (by decide)
  exact ⟨⟨by decide, by decide, by decide, by decide⟩,
    h.1.1, h.1.2 [0] (by decide), h.2.1.1, h.2.1.2 [0] (by decide),
    h.2.2.1 (NewZPState.mk 1 1 "mono" 0 (.plain 1 fun _ => 1) none
      (some .monoStereo)) [[1]] [[0, 0]] (by decide),
    h.2.2.2 (NewZPState.mk 1 1 "mono" 0 (.plain 1 fun _ => 1) none
      (some .monoStereo)) .monoStereo [[1]] [[0]] rfl (by decide),
    h.2.2.1 (NewZPState.mk 1 1 "mono" 0
      (.filterbank ⟨"linear", 1, 0, 1, fun _ => 1, fun _ _ => 0, 1⟩) none
      (some .monoStereo)) [[1]] [[0, 0]] (by decide),
    h.2.2.2 (NewZPState.mk 1 1 "mono" 0
      (.filterbank ⟨"linear", 1, 0, 1, fun _ => 1, fun _ _ => 0, 1⟩) none
      (some .monoStereo)) .monoStereo [[1]] [[0]] rfl (by decide)⟩

/-! ## C7: construction-time validation -/

/-- The state produced by constructing `NewZeroPhaseFIREqualizer` with the
unknown channel-mode name `"bogus"`: construction succeeds and no
processing strategy is selected. -/
def c7State : NewZPState :=
  ⟨1, 80, "bogus", 0, .plain 1 (namedWindow "hann"), none, none⟩

/-- Counterexample to C7 as stated: an unknown `eq_channel` name does not
raise `ConfigurationError` at construction time — the constructor
succeeds (the `match` in `__init__` has no default arm), and the failure
is deferred to the first `forward` call, which raises `AttributeError`
when it looks up the never-assigned `self.process`. -/
theorem C7_counterexample :
    newZPInit 1 "bogus" false "bark_traunmuller" 80 40 none none 0
        (.named "hann") (fun _ _ => 0) = .ok c7State ∧
      newZPForward c7State [[1]] [[0]] = .error .attributeError :=
  ⟨rfl, rfl⟩

/-- An `eq_channel` name outside the four known ones selects no strategy. -/
theorem chanModeOf_eq_none (ec : String)
    (h : ec ∉ (["mono", "stereo", "midside", "pseudo_midside"] :
      List String)) : chanModeOf ec = none := by
  unfold chanModeOf
  split <;> simp_all

/-- C7 (amended): invalid or missing construction options of the
filterbank path — an unknown scale name, an unknown window name, or
`f_max` omitted together with `sr` — raise `ConfigurationError` at
construction time, and an omitted `f_max` with `sr` supplied defaults to
`sr / 2`; but an unknown `eq_channel` name does
not raise at construction: the constructor succeeds with no processing
strategy selected, and the error surfaces only at the first `forward`
call, as an `AttributeError`. -/
theorem C7_amended_construction_validation :
    (∀ (nfb : ℕ) (ec sc : String) (nf : ℕ) (fmin : ℝ) (fmax sr : Option ℝ)
        (eps : ℝ) (w : WindowArg) (M : ℕ → ℕ → ℝ),
        sc ∉ validScales →
          newZPInit nfb ec true sc nf fmin fmax sr eps w M =
            .error .configurationError) ∧
      (∀ (nfb : ℕ) (ec : String) (ufb : Bool) (sc : String) (nf : ℕ)
          (fmin : ℝ) (fmax sr : Option ℝ) (eps : ℝ) (n : String)
          (M : ℕ → ℕ → ℝ),
          n ∉ validWindows →
            newZPInit nfb ec ufb sc nf fmin fmax sr eps (.named n) M =
              .error .configurationError) ∧
      (∀ (nfb : ℕ) (ec sc : String) (nf : ℕ) (fmin : ℝ) (eps : ℝ)
          (w : WindowArg) (M : ℕ → ℕ → ℝ),
          sc ∈ validScales → windowNameOk w = true →
            newZPInit nfb ec true sc nf fmin none none eps w M =
              .error .configurationError) ∧
      (∀ (nfb : ℕ) (ec sc : String) (nf : ℕ) (fmin s : ℝ) (eps : ℝ)
          (w : WindowArg) (M : ℕ → ℕ → ℝ),
          sc ∈ validScales → windowNameOk w = true →
            newZPInit nfb ec true sc nf fmin none (some s) eps w M =
              .ok ⟨nfb, nf, ec, eps,
                .filterbank ⟨sc, nf, fmin, s / 2, resolveWindow w, M, nfb⟩,
                none, chanModeOf ec⟩) ∧
      ∀ (nfb : ℕ) (ec : String) (nf : ℕ) (fmin : ℝ) (fmax sr : Option ℝ)
          (eps : ℝ) (w : ℤ → ℝ) (M : ℕ → ℕ → ℝ) (sc : String),
          ec ∉ (["mono", "stereo", "midside", "pseudo_midside"] :
            List String) →
            newZPInit nfb ec false sc nf fmin fmax sr eps (.custom w) M =
              .ok ⟨nfb, nf, ec, eps, .plain nfb w, none, none⟩ ∧
            ∀ x : List (List ℝ),
              newZPForward ⟨nfb, nf, ec, eps, .plain nfb w, none, none⟩ x
                [List.replicate nfb 0] = .error .attributeError := by
  refine ⟨?_, ?_, ?_, ?_, ?_⟩
  · intro nfb ec sc nf fmin fmax sr eps w M hsc
    unfold newZPInit zeroPhaseFilterBankFIRInit
    simp [hsc, Except.map]
  · intro nfb ec ufb sc nf fmin fmax sr eps n M hn
    cases ufb with
    | false =>
        unfold newZPInit zeroPhaseFIRInit
        simp [windowNameOk, hn]
    | true =>
        unfold newZPInit zeroPhaseFilterBankFIRInit
        by_cases hsc : sc ∈ validScales
        · simp [hsc, windowNameOk, hn, Except.map]
        · simp [hsc, Except.map]
  · intro nfb ec sc nf fmin eps w M hsc hw
    unfold newZPInit zeroPhaseFilterBankFIRInit
    simp [hsc, hw, Except.map]
  · intro nfb ec sc nf fmin s eps w M hsc hw
    unfold newZPInit zeroPhaseFilterBankFIRInit
    simp [hsc, hw, Except.map]
  · intro nfb ec nf fmin fmax sr eps w M sc hec
    have hcm := chanModeOf_eq_none ec hec
    constructor
    · unfold newZPInit zeroPhaseFIRInit
      simp [windowNameOk, hcm, resolveWindow]
    · intro x
      unfold newZPForward firApply
      simp

/-- Witness for C7 (amended) at concrete configurations: an unknown scale,
an unknown window, and a missing `f_max` with missing `sr` each raise
`ConfigurationError` at construction; `f_max` defaults to `sr / 2`; an
unknown channel mode constructs successfully and fails only at the first
`forward` call. -/
theorem C7_amended_witness :
    (("nope" ∉ validScales) ∧
        ("boxcar" ∉ validWindows) ∧
        ("linear" ∈ validScales) ∧
        windowNameOk (.custom fun _ => 1) = true ∧
        ("bogus" ∉ (["mono", "stereo", "midside", "pseudo_midside"] :
          List String))) ∧
      newZPInit 1 "mono" true "nope" 1 0 none none 0 (.custom fun _ => 1)
          (fun _ _ => 0) = .error .configurationError ∧
      newZPInit 1 "mono" false "x" 1 0 none none 0 (.named "boxcar")
          (fun _ _ => 0) = .error .configurationError ∧
      newZPInit 1 "mono" true "linear" 1 0 none none 0 (.custom fun _ => 1)
          (fun _ _ => 0) = .error .configurationError ∧
      newZPInit 1 "mono" true "linear" 1 0 none (some 4) 0
          (.custom fun _ => 1) (fun _ _ => 0) =
        .ok ⟨1, 1, "mono", 0,
          .filterbank ⟨"linear", 1, 0, 4 / 2,
            resolveWindow (.custom fun _ => 1), fun _ _ => 0, 1⟩,
          none, chanModeOf "mono"⟩ ∧
      newZPInit 1 "bogus" false "x" 1 0 none none 0 (.custom fun _ => 1)
          (fun _ _ => 0) = .ok ⟨1, 1, "bogus", 0, .plain 1 fun _ => 1,
            none, none⟩ ∧
      newZPForward ⟨1, 1, "bogus", 0, .plain 1 fun _ => 1, none, none⟩
          [[1]] [List.replicate 1 0] = .error .attributeError := by
  have h := C7_amended_construction_validation
  have h5 := h.2.2.2.2 1 "bogus" 1 0 none none 0 (fun _ => 1) (fun _ _ => 0)
    "x" (by decide)
  exact ⟨⟨by decide, by decide, by decide, rfl, by decide⟩,
    h.1 1 "mono" "nope" 1 0 none none 0 (.custom fun _ => 1) (fun _ _ => 0)
      (by decide),
    h.2.1 1 "mono" false "x" 1 0 none none 0 "boxcar" (fun _ _ => 0)
      (by decide),
    h.2.2.1 1 "mono" "linear" 1 0 0 (.custom fun _ => 1) (fun _ _ => 0)
      (by decide) rfl,
    h.2.2.2.1 1 "mono" "linear" 1 0 4 0 (.custom fun _ => 1) (fun _ _ => 0)
      (by decide) rfl,
    h5.1, h5.2 [[1]]⟩

/-! ## C8: forward preserves the signal shape -/

section ShapeLemmas

variable {α : Type} [Field α]

/-- Zero-phase convolution returns exactly the input length. -/
theorem zconv_length (x h : List α) : (zconv x h).length = x.length := by
  simp [zconv]

/-- Per-channel convolution of paired channels and kernels preserves the
per-channel lengths. -/
theorem zipWith_zconv_shape :
    ∀ (x fir : List (List α)), x.length = fir.length →
      (List.zipWith zconv x fir).map List.length = x.map List.length := by
  intro x
  induction x with
  | nil => intro fir _; simp
  | cons c cs ih =>
      intro fir hx
      cases fir with
      | nil => simp at hx
      | cons k ks =>
          simp only [List.zipWith_cons_cons, List.map_cons, zconv_length]
          exact congrArg _ (ih ks (by simpa using hx))

/-- The recursive filter returns exactly the input length. -/
theorem lfilterAux_length (b0 b1 b2 a1 a2 : α) :
    ∀ (x : List α) (x1 x2 y1 y2 : α),
      (lfilterAux b0 b1 b2 a1 a2 x1 x2 y1 y2 x).length = x.length := by
  intro x
  induction x with
  | nil => intro x1 x2 y1 y2; rfl
  | cons xn rest ih =>
      intro x1 x2 y1 y2
      show (_ :: lfilterAux b0 b1 b2 a1 a2 xn x1 _ y1 rest).length = _
      simp only [List.length_cons, ih]

/-- One exact-mode biquad preserves the signal length. -/
theorem biquadExact_length (s : Biquad α) (x : List α) :
    (biquadExact s x).length = x.length := by
  unfold biquadExact
  exact lfilterAux_length _ _ _ _ _ x 0 0 0 0

/-- The exact-mode cascade preserves the signal length. -/
theorem cascadeExact_length (secs : List (Biquad α)) :
    ∀ x : List α, (cascadeExact secs x).length = x.length := by
  induction secs with
  | nil => intro x; rfl
  | cons s rest ih =>
      intro x
      unfold cascadeExact at *
      rw [List.foldl_cons]
      rw [ih (biquadExact s x), biquadExact_length]

end ShapeLemmas

/-- Convolving every channel with one shared kernel preserves the shape. -/
theorem map_zconv_shape (x : List (List ℝ)) (k : List ℝ) :
    (x.map fun c => zconv c k).map List.length = x.map List.length := by
  simp [List.map_map, Function.comp_def, zconv_length]

/-- The midside strategy preserves the 2-channel shape. -/
theorem processApply_midside_shape (a b k1 k2 : List ℝ)
    (hab : a.length = b.length) :
    (processApply .midside [a, b] [k1, k2]).map List.length =
      [a, b].map List.length := by
  show ([halfL (addL (zconv (addL a b) k1) (zconv (subL a b) k2)),
      halfL (subL (zconv (addL a b) k1) (zconv (subL a b) k2))].map
        List.length) = _
  simp [halfL, addL, subL, List.length_zipWith, zconv_length, hab]

/-- The pseudo-midside strategy preserves the 2-channel shape. -/
theorem processApply_pseudo_shape (a b k1 k2 : List ℝ) :
    (processApply .pseudoMidside [a, b] [k1, k2]).map List.length =
      [a, b].map List.length := by
  show ([zconv a (halfL (addL k1 k2)),
      zconv b (halfL (subL k1 k2))].map List.length) = _
  simp [zconv_length]

/-- With a single kernel, the mono/stereo strategy convolves every
channel with it. -/
theorem processApply_mono_single (x : List (List ℝ)) (k : List ℝ) :
    processApply .monoStereo x [k] = x.map fun c => zconv c k := rfl

/-- Either backend of the graphic equalizer preserves the channel
length: the exact cascade by induction over the recursion, the FSM
backend because the FIR approximation is applied by zero-phase
convolution. -/
theorem biquadBackendApply_length (bk : BackendMode)
    (secs : List (Biquad ℝ)) (c : List ℝ) :
    (biquadBackendApply bk secs c).length = c.length := by
  cases bk with
  | exact => exact cascadeExact_length secs c
  | fsm L => exact zconv_length c (fsmKernel secs L)

/-- C8: with conforming inputs, every modelled equalizer forward returns
a signal of exactly the input's shape (same channel count, same
per-channel length): the zero-phase convolution itself preserves the
length, and so do `ZeroPhaseFIREqualizer.forward`,
`NewZeroPhaseFIREqualizer.forward` in all four channel modes with either
FIR submodule (plain or filterbank), and `GraphicEqualizer.forward` with
either backend (exact or fsm). -/
theorem C8_forward_preserves_shape :
    (∀ x h : List ℝ, (zconv x h).length = x.length) ∧
      (∀ (stz : ZPState) (x : List (List ℝ)) (lm : List ℝ),
          lm.length = stz.num_magnitude_bins →
          ∃ y, zpForward stz x lm = .ok y ∧
            y.map List.length = x.map List.length) ∧
      (∀ (st : NewZPState) (x : List (List ℝ)) (c : List ℝ),
          st.process = some .monoStereo → c.length = firBins st.fir →
          ∃ y, newZPForward st x [c] = .ok y ∧
            y.map List.length = x.map List.length) ∧
      (∀ (st : NewZPState) (x lm : List (List ℝ)),
          st.process = some .monoStereo →
          (∀ c ∈ lm, c.length = firBins st.fir) → lm.length = x.length →
          lm.length ≠ 1 →
          ∃ y, newZPForward st x lm = .ok y ∧
            y.map List.length = x.map List.length) ∧
      (∀ (st : NewZPState) (a b c1 c2 : List ℝ),
          st.process = some .midside → c1.length = firBins st.fir →
          c2.length = firBins st.fir → a.length = b.length →
          ∃ y, newZPForward st [a, b] [c1, c2] = .ok y ∧
            y.map List.length = [a, b].map List.length) ∧
      (∀ (st : NewZPState) (a b c1 c2 : List ℝ),
          st.process = some .pseudoMidside → c1.length = firBins st.fir →
          c2.length = firBins st.fir →
          ∃ y, newZPForward st [a, b] [c1, c2] = .ok y ∧
            y.map List.length = [a, b].map List.length) ∧
      ∀ (stg : GEQState) (x : List (List ℝ)) (lgs : List ℝ),
          lgs.length = stg.bands.length →
          ∃ y, geqForward stg x lgs = .ok y ∧
            y.map List.length = x.map List.length := by
  refine ⟨zconv_length, ?_, ?_, ?_, ?_, ?_, ?_⟩
  · intro stz x lm hlen
    have h1 : zeroPhaseFIRCall stz.num_magnitude_bins stz.window lm =
        .ok (zeroPhaseFIRKernel stz.num_magnitude_bins stz.window lm) := by
      unfold zeroPhaseFIRCall
      rw [if_pos hlen]
    refine ⟨x.map fun c =>
        zconv c (zeroPhaseFIRKernel stz.num_magnitude_bins stz.window lm),
      ?_, ?_⟩
    · unfold zpForward
      rw [h1]
    · exact map_zconv_shape x _
  · intro st x c hproc hlen
    obtain ⟨fir, hfa, hflen⟩ := firApply_ok_of_valid st.fir [c] (by
      intro d hd
      rw [List.mem_singleton] at hd
      rw [hd]
      exact hlen)
    have hf1 : fir.length = 1 := by rw [hflen]; rfl
    refine ⟨processApply .monoStereo x fir, ?_, ?_⟩
    · unfold newZPForward
      rw [hfa, hproc]
    · have hp : processApply .monoStereo x fir =
          x.map fun d => zconv d (fir.getD 0 []) := by
        unfold processApply
        rw [if_pos hf1]
      rw [hp]
      exact map_zconv_shape x _
  · intro st x lm hproc hvalid hxlm hne1
    obtain ⟨fir, hfa, hflen⟩ := firApply_ok_of_valid st.fir lm hvalid
    have hfne : fir.length ≠ 1 := by rw [hflen]; exact hne1
    refine ⟨processApply .monoStereo x fir, ?_, ?_⟩
    · unfold newZPForward
      rw [hfa, hproc]
    · have hp : processApply .monoStereo x fir =
          List.zipWith zconv x fir := by
        unfold processApply
        rw [if_neg hfne]
      rw [hp]
      refine zipWith_zconv_shape x fir ?_
      rw [hflen]
      exact hxlm.symm
  · intro st a b c1 c2 hproc h1 h2 hab
    obtain ⟨fir, hfa, hflen⟩ := firApply_ok_of_valid st.fir [c1, c2] (by
      intro d hd
      rw [List.mem_cons, List.mem_singleton] at hd
      rcases hd with rfl | rfl
      · exact h1
      · exact h2)
    obtain ⟨k1, k2, rfl⟩ := List.length_eq_two.mp (by rw [hflen]; rfl)
    refine ⟨processApply .midside [a, b] [k1, k2], ?_, ?_⟩
    · unfold newZPForward
      rw [hfa, hproc]
    · exact processApply_midside_shape a b k1 k2 hab
  · intro st a b c1 c2 hproc h1 h2
    obtain ⟨fir, hfa, hflen⟩ := firApply_ok_of_valid st.fir [c1, c2] (by
      intro d hd
      rw [List.mem_cons, List.mem_singleton] at hd
      rcases hd with rfl | rfl
      · exact h1
      · exact h2)
    obtain ⟨k1, k2, rfl⟩ := List.length_eq_two.mp (by rw [hflen]; rfl)
    refine ⟨processApply .pseudoMidside [a, b] [k1, k2], ?_, ?_⟩
    · unfold newZPForward
      rw [hfa, hproc]
    · exact processApply_pseudo_shape a b k1 k2
  · intro stg x lgs hlen
    have h1 : geqDesignChecked stg.bands lgs =
        .ok (geqDesign stg.bands lgs) := by
      unfold geqDesignChecked
      rw [if_pos hlen]
    refine ⟨x.map fun c =>
      biquadBackendApply stg.backend (geqDesign stg.bands lgs) c, ?_, ?_⟩
    · unfold geqForward
      rw [h1]
    · simp [List.map_map, Function.comp_def, biquadBackendApply_length]

/-- Witness for C8 on concrete one- and two-channel inputs: one instance
per channel mode, with both the plain and the filterbank FIR submodule
represented, and the graphic equalizer under both backends. -/
theorem C8_witness :
    (∃ y, zpForward ⟨1, fun _ => 1⟩ [[1]] [0] = .ok y ∧
        y.map List.length = [[(1 : ℝ)]].map List.length) ∧
      (∃ y, newZPForward
          ⟨1, 1, "mono", 0, .plain 1 fun _ => 1, none, some .monoStereo⟩
          [[1]] [[0]] = .ok y ∧
        y.map List.length = [[(1 : ℝ)]].map List.length) ∧
      (∃ y, newZPForward
          ⟨1, 1, "mono", 0,
            .filterbank ⟨"linear", 1, 0, 1, fun _ => 1, fun _ _ => 0, 1⟩,
            none, some .monoStereo⟩
          [[1]] [[0]] = .ok y ∧
        y.map List.length = [[(1 : ℝ)]].map List.length) ∧
      (∃ y, newZPForward
          ⟨1, 1, "stereo", 0, .plain 1 fun _ => 1, none, some .monoStereo⟩
          [[1], [2]] [[0], [0]] = .ok y ∧
        y.map List.length = [[(1 : ℝ)], [2]].map List.length) ∧
      (∃ y, newZPForward
          ⟨1, 1, "midside", 0, .plain 1 fun _ => 1, none, some .midside⟩
          [[1], [2]] [[0], [0]] = .ok y ∧
        y.map List.length = [[(1 : ℝ)], [2]].map List.length) ∧
      (∃ y, newZPForward
          ⟨1, 1, "pseudo_midside", 0,
            .filterbank ⟨"linear", 1, 0, 1, fun _ => 1, fun _ _ => 0, 1⟩,
            none, some .pseudoMidside⟩
          [[1], [2]] [[0], [0]] = .ok y ∧
        y.map List.length = [[(1 : ℝ)], [2]].map List.length) ∧
      (∃ y, geqForward ⟨[((0 : ℝ), (0 : ℝ))], .exact⟩ [[1]] [0] = .ok y ∧
        y.map List.length = [[(1 : ℝ)]].map List.length) ∧
      ∃ y, geqForward ⟨[((0 : ℝ), (0 : ℝ))], .fsm 8192⟩ [[1]] [0] = .ok y ∧
        y.map List.length = [[(1 : ℝ)]].map List.length := by
  have h := C8_forward_preserves_shape
  exact ⟨h.2.1 ⟨1, fun _ => 1⟩ [[1]] [0] (by decide),
    h.2.2.1 ⟨1, 1, "mono", 0, .plain 1 fun _ => 1, none, some .monoStereo⟩
      [[1]] [0] rfl (by decide),
    h.2.2.1 ⟨1, 1, "mono", 0,
        .filterbank ⟨"linear", 1, 0, 1, fun _ => 1, fun _ _ => 0, 1⟩, none,
        some .monoStereo⟩ [[1]] [0] rfl (by decide),
    h.2.2.2.1 ⟨1, 1, "stereo", 0, .plain 1 fun _ => 1, none,
        some .monoStereo⟩ [[1], [2]] [[0], [0]] rfl (by decide) (by decide)
      (by decide),
    h.2.2.2.2.1 ⟨1, 1, "midside", 0, .plain 1 fun _ => 1, none,
        some .midside⟩ [1] [2] [0] [0] rfl (by decide) (by decide)
      (by decide),
    h.2.2.2.2.2.1 ⟨1, 1, "pseudo_midside", 0,
        .filterbank ⟨"linear", 1, 0, 1, fun _ => 1, fun _ _ => 0, 1⟩, none,
        some .pseudoMidside⟩ [1] [2] [0] [0] rfl (by decide) (by decide),
    h.2.2.2.2.2.2 ⟨[((0 : ℝ), (0 : ℝ))], .exact⟩ [[1]] [0] (by decide),
    h.2.2.2.2.2.2 ⟨[((0 : ℝ), (0 : ℝ))], .fsm 8192⟩ [[1]] [0] (by decide)⟩

/-! ## C2: true midside versus pseudo-midside -/

section C2Lemmas

variable {α : Type} [Field α]

/-- Indexing a zip of equally long channels (with a mix that fixes 0). -/
theorem getD_zipWith (f : α → α → α) (hf : f 0 0 = 0) :
    ∀ (a b : List α), a.length = b.length → ∀ j : ℕ,
      (List.zipWith f a b).getD j 0 = f (a.getD j 0) (b.getD j 0) := by
  intro a
  induction a with
  | nil =>
      intro b hab j
      cases b with
      | nil => simp [hf]
      | cons y ys => simp at hab
  | cons x xs ih =>
      intro b hab j
      cases b with
      | nil => simp at hab
      | cons y ys =>
          cases j with
          | zero => simp
          | succ j => simpa using ih ys (by simpa using hab) j

/-- Indexing a halved channel. -/
theorem getD_halfL (l : List α) (j : ℕ) :
    (halfL l).getD j 0 = l.getD j 0 / 2 := by
  induction l generalizing j with
  | nil => simp [halfL]
  | cons x xs ih =>
      cases j with
      | zero => simp [halfL]
      | succ j => simpa [halfL] using ih j

/-- Padded sample of an elementwise mix of equally long channels. -/
theorem zAt_zipWith (f : α → α → α) (hf : f 0 0 = 0) (a b : List α)
    (hab : a.length = b.length) (i : ℤ) :
    zAt (List.zipWith f a b) i = f (zAt a i) (zAt b i) := by
  unfold zAt
  rw [List.length_zipWith, hab, min_self]
  by_cases h : 0 ≤ i ∧ i < (b.length : ℤ)
  · rw [if_pos h, if_pos h, if_pos h]
    exact getD_zipWith f hf a b hab i.toNat
  · rw [if_neg h, if_neg h, if_neg h]
    exact hf.symm

/-- Convolution distributes over the channel sum. -/
theorem zconvAt_add_signal (a b k : List α) (hab : a.length = b.length)
    (n : ℤ) :
    zconvAt (addL a b) k n = zconvAt a k n + zconvAt b k n := by
  unfold zconvAt addL
  rw [← Finset.sum_add_distrib]
  apply Finset.sum_congr rfl
  intro j _
  rw [zAt_zipWith (· + ·) (by ring) a b hab]
  ring

/-- Convolution distributes over the channel difference. -/
theorem zconvAt_sub_signal (a b k : List α) (hab : a.length = b.length)
    (n : ℤ) :
    zconvAt (subL a b) k n = zconvAt a k n - zconvAt b k n := by
  unfold zconvAt subL
  rw [← Finset.sum_sub_distrib]
  apply Finset.sum_congr rfl
  intro j _
  rw [zAt_zipWith (· - ·) (by ring) a b hab]
  ring

/-- Convolving with the halved sum of two equally long kernels. -/
theorem zconvAt_half_add_kernel (x k1 k2 : List α)
    (hk : k1.length = k2.length) (n : ℤ) :
    zconvAt x (halfL (addL k1 k2)) n =
      (zconvAt x k1 n + zconvAt x k2 n) / 2 := by
  unfold zconvAt
  have hlen : (halfL (addL k1 k2)).length = k2.length := by
    simp [halfL, addL, List.length_zipWith, hk]
  rw [hlen, hk]
  rw [← Finset.sum_add_distrib, Finset.sum_div]
  apply Finset.sum_congr rfl
  intro j _
  rw [getD_halfL]
  unfold addL
  rw [getD_zipWith (· + ·) (by ring) k1 k2 hk j]
  ring

/-- Convolving with the halved difference of two equally long kernels. -/
theorem zconvAt_half_sub_kernel (x k1 k2 : List α)
    (hk : k1.length = k2.length) (n : ℤ) :
    zconvAt x (halfL (subL k1 k2)) n =
      (zconvAt x k1 n - zconvAt x k2 n) / 2 := by
  unfold zconvAt
  have hlen : (halfL (subL k1 k2)).length = k2.length := by
    simp [halfL, subL, List.length_zipWith, hk]
  rw [hlen, hk]
  rw [← Finset.sum_sub_distrib, Finset.sum_div]
  apply Finset.sum_congr rfl
  intro j _
  rw [getD_halfL]
  unfold subL
  rw [getD_zipWith (· - ·) (by ring) k1 k2 hk j]
  ring

/-- A zip of two maps over one list is a map of the combined function. -/
theorem zipWith_map_same {γ β : Type} (f : β → β → β) (g h : γ → β) :
    ∀ l : List γ, List.zipWith f (l.map g) (l.map h) =
      l.map fun n => f (g n) (h n) := by
  intro l
  induction l with
  | nil => rfl
  | cons x xs ih => simp [ih]

/-- Halved sum of two maps over one range. -/
theorem halfL_addL_map (L : ℕ) (f g : ℕ → α) :
    halfL (addL ((List.range L).map f) ((List.range L).map g)) =
      (List.range L).map fun n => (f n + g n) / 2 := by
  unfold addL halfL
  rw [zipWith_map_same, List.map_map]
  rfl

/-- Halved difference of two maps over one range. -/
theorem halfL_subL_map (L : ℕ) (f g : ℕ → α) :
    halfL (subL ((List.range L).map f) ((List.range L).map g)) =
      (List.range L).map fun n => (f n - g n) / 2 := by
  unfold subL halfL
  rw [zipWith_map_same, List.map_map]
  rfl

/-- Sum of two maps over one range. -/
theorem addL_map (L : ℕ) (f g : ℕ → α) :
    addL ((List.range L).map f) ((List.range L).map g) =
      (List.range L).map fun n => f n + g n := by
  unfold addL
  rw [zipWith_map_same]

end C2Lemmas

/-- Counterexample to C2 as stated: with the identity kernel on both the
mid and the side channel, the true midside path is the identity on a
2-channel signal, while the pseudo-midside path zeroes the second
channel; the two paths are not equal. -/
theorem C2_counterexample :
    processApply .pseudoMidside [[0], [1]] [[1], [1]] ≠
      processApply (α := ℝ) .midside [[0], [1]] [[1], [1]] := by
  intro h
  have h2 := congrArg (fun y : List (List ℝ) => (y.getD 1 []).getD 0 0) h
  norm_num [processApply, ms_to_lr, lr_to_ms, ch0, ch1, addL, subL, halfL,
    zconv, zconvAt, zAt, List.range_succ, Finset.sum_range_succ] at h2

/-- C2 (amended): under the model's exact rational/real arithmetic, the
true midside path equals the full symmetric 2-by-2 convolution with the
`ms_to_lr`-transformed kernel pair `(hL, hR)`: left output
`a * hL + b * hR` and right output `a * hR + b * hL` (`*` denoting
zero-phase convolution).  The pseudo-midside path computes only
`(a * hL, b * hR)`, dropping the cross-channel terms and mismatching the
right diagonal, so the two paths are different operators in general (see
the counterexample); they agree only when those extra terms vanish. -/
theorem C2_amended_midside_vs_pseudo {α : Type} [Field α]
    (a b k1 k2 : List α) (hab : a.length = b.length)
    (hk : k1.length = k2.length) :
    processApply .midside [a, b] [k1, k2] =
      [addL (zconv a (halfL (addL k1 k2))) (zconv b (halfL (subL k1 k2))),
        addL (zconv a (halfL (subL k1 k2)))
          (zconv b (halfL (addL k1 k2)))] ∧
      processApply .pseudoMidside [a, b] [k1, k2] =
        [zconv a (halfL (addL k1 k2)), zconv b (halfL (subL k1 k2))] := by
  have hX : (addL a b).length = b.length := by
    simp [addL, List.length_zipWith, hab]
  have hY : (subL a b).length = b.length := by
    simp [subL, List.length_zipWith, hab]
  constructor
  · have key1 : ∀ n : ℤ,
        (zconvAt (addL a b) k1 n + zconvAt (subL a b) k2 n) / 2 =
          zconvAt a (halfL (addL k1 k2)) n +
            zconvAt b (halfL (subL k1 k2)) n := by
      intro n
      rw [zconvAt_add_signal a b k1 hab, zconvAt_sub_signal a b k2 hab,
        zconvAt_half_add_kernel a k1 k2 hk, zconvAt_half_sub_kernel b k1 k2 hk]
      ring
    have key2 : ∀ n : ℤ,
        (zconvAt (addL a b) k1 n - zconvAt (subL a b) k2 n) / 2 =
          zconvAt a (halfL (subL k1 k2)) n +
            zconvAt b (halfL (addL k1 k2)) n := by
      intro n
      rw [zconvAt_add_signal a b k1 hab, zconvAt_sub_signal a b k2 hab,
        zconvAt_half_sub_kernel a k1 k2 hk, zconvAt_half_add_kernel b k1 k2 hk]
      ring
    show [halfL (addL (zconv (addL a b) k1) (zconv (subL a b) k2)),
        halfL (subL (zconv (addL a b) k1) (zconv (subL a b) k2))] = _
    have hchan1 :
        halfL (addL (zconv (addL a b) k1) (zconv (subL a b) k2)) =
          addL (zconv a (halfL (addL k1 k2)))
            (zconv b (halfL (subL k1 k2))) := by
      unfold zconv
      rw [hX, hY, hab, halfL_addL_map, addL_map]
      congr 1
      funext n
      exact key1 (n : ℤ)
    have hchan2 :
        halfL (subL (zconv (addL a b) k1) (zconv (subL a b) k2)) =
          addL (zconv a (halfL (subL k1 k2)))
            (zconv b (halfL (addL k1 k2))) := by
      unfold zconv
      rw [hX, hY, hab, halfL_subL_map, addL_map]
      congr 1
      funext n
      exact key2 (n : ℤ)
    rw [hchan1, hchan2]
  · rfl

/-- Witness for C2 (amended) at a concrete 2-channel signal and kernel. -/
theorem C2_amended_witness :
    (([(3 : ℝ), 1] : List ℝ).length = ([2, 5] : List ℝ).length ∧
        ([(1 : ℝ), 0, 0] : List ℝ).length = ([0, 1, 0] : List ℝ).length) ∧
      processApply .midside [[(3 : ℝ), 1], [2, 5]] [[1, 0, 0], [0, 1, 0]] =
        [addL (zconv [(3 : ℝ), 1] (halfL (addL [1, 0, 0] [0, 1, 0])))
            (zconv [2, 5] (halfL (subL [1, 0, 0] [0, 1, 0]))),
          addL (zconv [(3 : ℝ), 1] (halfL (subL [1, 0, 0] [0, 1, 0])))
            (zconv [2, 5] (halfL (addL [1, 0, 0] [0, 1, 0])))] ∧
      processApply .pseudoMidside [[(3 : ℝ), 1], [2, 5]]
          [[1, 0, 0], [0, 1, 0]] =
        [zconv [(3 : ℝ), 1] (halfL (addL [1, 0, 0] [0, 1, 0])),
          zconv [2, 5] (halfL (subL [1, 0, 0] [0, 1, 0]))] :=
  ⟨⟨by decide, by decide⟩,
    (C2_amended_midside_vs_pseudo [3, 1] [2, 5] [1, 0, 0] [0, 1, 0]
      (by decide) (by decide)).1,
    (C2_amended_midside_vs_pseudo [3, 1] [2, 5] [1, 0, 0] [0, 1, 0]
      (by decide) (by decide)).2⟩
